import Mathlib

/-!
# Verification of the transcript-accumulation core of the voice-chat client

This file gives a shallow embedding, in Lean, of the state and the
state-transforming operations of `src/App.tsx` (a React voice-chat client),
and proves the behavioural properties claimed for it.

Modelling conventions:

* The component's refs and state hooks (`messages`, `currentInputTextRef`,
  `currentOutputTextRef`, `activeMessageIds`, `error`, `isConnected`,
  `sessionRef`, `inputContextRef`, `aiRef`) are gathered into one record
  `AppState`; the React `setMessages` updater is applied synchronously.
* The source generates message ids with `Date.now().toString() +
  Math.random().toString(36).substring(2, 9)`, an effectively fresh string.
  Id generation is modelled as a fresh-name counter: ids are naturals drawn
  from a `nextId` field that is incremented at each generation.  Nothing in
  the program inspects the content of an id, only equality of ids.
* `findIndex` followed by an in-place assignment at the found index is
  modelled by `replaceFirst`, which rewrites the first list entry whose id
  matches (and, like the source, leaves the entry's `id` and `role` fields
  as they were, rewriting only `text` and `isPartial`).
* Browser/SDK calls (audio graph, microphone, the live session itself) are
  outside the model; only their synchronous effect on the modelled state is
  kept.  JS truthiness of a string (`if (text)`) is the test `text ≠ ""`;
  an absent field is `Option.none`.
-/

/-- The two speaker roles of a message (`'user' | 'model'` in the source). -/
inductive Role where
  | user
  | model
  deriving DecidableEq, Repr

/-- A conversation entry, mirroring `interface Message` of the source:
`{id, role, text, isPartial}`. -/
structure Message where
  id : Nat
  role : Role
  text : String
  isPartial : Bool
  deriving DecidableEq, Repr

/-- The mutable state of the `App` component: the rendered message list, the
two per-role accumulation buffers, the per-role active message id trackers,
the fresh-id counter, and the connection/error bookkeeping. -/
structure AppState where
  messages : List Message
  currentInputText : String
  currentOutputText : String
  activeUserId : Option Nat
  activeModelId : Option Nat
  nextId : Nat
  error : Option String
  isConnected : Bool
  hasAi : Bool
  sessionRef : Bool
  inputContext : Bool
  deriving DecidableEq, Repr

/-- The state at mount: no messages, empty buffers, no active ids,
no error, disconnected, no AI client, no session, no audio context. -/
def initState : AppState :=
  { messages := []
    currentInputText := ""
    currentOutputText := ""
    activeUserId := none
    activeModelId := none
    nextId := 0
    error := none
    isConnected := false
    hasAi := false
    sessionRef := false
    inputContext := false }

/-- `activeMessageIds.current[role]`. -/
def getActive (s : AppState) (r : Role) : Option Nat :=
  match r with
  | Role.user => s.activeUserId
  | Role.model => s.activeModelId

/-- `activeMessageIds.current[role] = v`. -/
def setActive (s : AppState) (r : Role) (v : Option Nat) : AppState :=
  match r with
  | Role.user => { s with activeUserId := v }
  | Role.model => { s with activeModelId := v }

/-- The per-role accumulation buffer (`currentInputTextRef` /
`currentOutputTextRef`). -/
def getBuffer (s : AppState) (r : Role) : String :=
  match r with
  | Role.user => s.currentInputText
  | Role.model => s.currentOutputText

/-- Overwrite the per-role accumulation buffer. -/
def setBuffer (s : AppState) (r : Role) (c : String) : AppState :=
  match r with
  | Role.user => { s with currentInputText := c }
  | Role.model => { s with currentOutputText := c }

/-- The opposite role. -/
def otherRole : Role → Role
  | Role.user => Role.model
  | Role.model => Role.user

/-- JS truthiness of `text.trim()` in `updateMessage`: the trimmed string is
non-empty, that is, some character of `text` is not whitespace.  Stated over
the character list so that it computes by kernel reduction (Lean's own
`String.trim` recurses by well-founded measure and does not). -/
def trimNonempty (text : String) : Bool :=
  text.data.any (fun c => !c.isWhitespace)

/-- Rewrite the first message whose id is `tid`, setting its `text` and
`isPartial` (the source's `newMessages[msgIndex] = {...newMessages[msgIndex],
text, isPartial: !isFinal}` after `findIndex`). -/
def replaceFirst (tid : Nat) (text : String) (isFinal : Bool) :
    List Message → List Message
  | [] => []
  | m :: ms =>
    if m.id = tid then
      { m with text := text, isPartial := !isFinal } :: ms
    else
      m :: replaceFirst tid text isFinal ms

/-- The `setMessages` updater body of `updateMessage`, together with the
final-turn reset of the active id: with target id `tid` in hand, update the
message found by id, or push a new one; if `isFinal`, null out the role's
active id. -/
def applyUpdate (role : Role) (text : String) (isFinal : Bool) (tid : Nat)
    (s : AppState) : AppState :=
  let found := s.messages.any (fun m => m.id == tid)
  let newMessages :=
    if found then
      replaceFirst tid text isFinal s.messages
    else
      s.messages ++ [{ id := tid, role := role, text := text, isPartial := !isFinal }]
  let s' := { s with messages := newMessages }
  if isFinal then setActive s' role none else s'

/-- `updateMessage(role, text, isFinal)` from the source: take the role's
active id; if there is none and `text.trim()` is truthy, generate a fresh id
and record it; with no id at all, return; otherwise update or create the
message and reset the active id on a final turn. -/
def updateMessage (role : Role) (text : String) (isFinal : Bool)
    (s : AppState) : AppState :=
  match getActive s role with
  | some tid => applyUpdate role text isFinal tid s
  | none =>
    if trimNonempty text then
      let tid := s.nextId
      let s' := setActive { s with nextId := s.nextId + 1 } role (some tid)
      applyUpdate role text isFinal tid s'
    else s

/-- The parts of a `LiveServerMessage` the handler reads, flattened: the
`serverContent` transcription texts (`none` both when the transcription
object or its `text` field is absent), and the `turnComplete` /
`interrupted` flags. -/
structure LiveServerMessage where
  inputTranscription : Option String
  outputTranscription : Option String
  turnComplete : Bool
  interrupted : Bool
  deriving DecidableEq, Repr

/-- The `inputTranscription` block of `onmessage`: on a truthy fragment,
append it to the user buffer and update the user's in-progress message. -/
def handleInput (t : Option String) (s : AppState) : AppState :=
  match t with
  | none => s
  | some text =>
    if text = "" then s
    else
      let s' := { s with currentInputText := s.currentInputText ++ text }
      updateMessage Role.user s'.currentInputText false s'

/-- The `outputTranscription` block of `onmessage`, symmetric for the model. -/
def handleOutput (t : Option String) (s : AppState) : AppState :=
  match t with
  | none => s
  | some text =>
    if text = "" then s
    else
      let s' := { s with currentOutputText := s.currentOutputText ++ text }
      updateMessage Role.model s'.currentOutputText false s'

/-- The user half of the `turnComplete` block: commit the user buffer when
non-empty, then clear it. -/
def commitUser (s : AppState) : AppState :=
  if s.currentInputText ≠ "" then
    let s' := updateMessage Role.user s.currentInputText true s
    { s' with currentInputText := "" }
  else s

/-- The model half of the `turnComplete` block: commit the model buffer when
non-empty, then clear it. -/
def commitModel (s : AppState) : AppState :=
  if s.currentOutputText ≠ "" then
    let s' := updateMessage Role.model s.currentOutputText true s
    { s' with currentOutputText := "" }
  else s

/-- The `turnComplete` block of `onmessage`: the user commit runs first,
then the model commit, as in the source. -/
def handleTurnComplete (s : AppState) : AppState :=
  commitModel (commitUser s)

/-- The `interrupted` block of `onmessage`: on a non-empty model buffer,
finalize the model message with the fixed `" ..."` marker appended, then
clear the model buffer. -/
def handleInterrupted (s : AppState) : AppState :=
  if s.currentOutputText ≠ "" then
    let s' := updateMessage Role.model (s.currentOutputText ++ " ...") true s
    { s' with currentOutputText := "" }
  else s

/-- The `onmessage` callback: the input-transcription block, then the
output-transcription block, then (when flagged) the turn-complete block,
then (when flagged) the interruption block, in source order. -/
def onmessage (msg : LiveServerMessage) (s : AppState) : AppState :=
  let s1 := handleInput msg.inputTranscription s
  let s2 := handleOutput msg.outputTranscription s1
  let s3 := if msg.turnComplete then handleTurnComplete s2 else s2
  if msg.interrupted then handleInterrupted s3 else s3

/-- `downloadTranscript`: `none` models the early `return` on an empty
message list; otherwise the serialized text handed to the `Blob`. -/
def downloadTranscript (messages : List Message) : Option String :=
  if messages.length = 0 then none
  else
    some (String.intercalate "\n\n" (messages.map (fun msg =>
      "[" ++ (if msg.role = Role.user then "User" else "AI") ++ "]: " ++ msg.text)))

/-- `disconnect`: drop the connected flag, release the session, and clear
both accumulation buffers and both active id trackers.  The audio-context
close, track stop and node detach calls act outside the modelled state (the
context ref itself is kept, as in the source). -/
def disconnect (s : AppState) : AppState :=
  { s with isConnected := false
           sessionRef := false
           currentInputText := ""
           currentOutputText := ""
           activeUserId := none
           activeModelId := none }

/-- The `onclose` callback: only drops the connected flag. -/
def onclose (s : AppState) : AppState :=
  { s with isConnected := false }

/-- The `onerror` callback: surface `err.message || "Connection error.
Please try again."` and run `disconnect`. -/
def onerror (errMsg : String) (s : AppState) : AppState :=
  disconnect { s with
    error := some (if errMsg = "" then "Connection error. Please try again." else errMsg) }

/-- The mount-time effect initializing the AI client: with a credential the
client is created, otherwise the visible error is set to
`"API Key is missing."`. -/
def initAi (hasApiKey : Bool) (s : AppState) : AppState :=
  if hasApiKey then { s with hasAi := true }
  else { s with error := some "API Key is missing." }

/-- Outcome of the external part of a connection attempt (microphone,
session): it either succeeds or throws with a message. -/
inductive ConnectAttempt where
  | success
  | failure (msg : String)
  deriving DecidableEq, Repr

/-- `connect`: bail out immediately when no AI client exists (the Boolean
result records whether an attempt was made); otherwise clear the error and
run the external attempt, whose failure is caught by `setError` plus
`disconnect`. -/
def connect (attempt : ConnectAttempt) (s : AppState) : AppState × Bool :=
  if s.hasAi = false then (s, false)
  else
    let s1 := { s with error := none }
    match attempt with
    | ConnectAttempt.success =>
        ({ s1 with inputContext := true, sessionRef := true, isConnected := true }, true)
    | ConnectAttempt.failure m =>
        (disconnect { s1 with inputContext := true, error := some m }, true)

/-- A transcription-only server message carrying one fragment for a role. -/
def fragEvent (r : Role) (f : String) : LiveServerMessage :=
  match r with
  | Role.user => { inputTranscription := some f, outputTranscription := none
                   turnComplete := false, interrupted := false }
  | Role.model => { inputTranscription := none, outputTranscription := some f
                    turnComplete := false, interrupted := false }

/-- A bare turn-complete server message. -/
def turnCompleteEvent : LiveServerMessage :=
  { inputTranscription := none, outputTranscription := none
    turnComplete := true, interrupted := false }

/-- A bare interruption server message. -/
def interruptEvent : LiveServerMessage :=
  { inputTranscription := none, outputTranscription := none
    turnComplete := false, interrupted := true }

/-- Deliver a sequence of transcription fragments for one role, in order. -/
def processFragments (r : Role) (frags : List String) (s : AppState) : AppState :=
  frags.foldl (fun s' f => onmessage (fragEvent r f) s') s

/-- The id-and-role skeleton of a message list. -/
def idRoles (l : List Message) : List (Nat × Role) :=
  l.map (fun m => (m.id, m.role))

/-- The messages of one role, in list order. -/
def roleMessages (r : Role) (l : List Message) : List Message :=
  l.filter (fun m => decide (m.role = r))

/-- The in-progress messages of one role, in list order. -/
def openMessages (r : Role) (l : List Message) : List Message :=
  l.filter (fun m => decide (m.role = r) && m.isPartial)

/-- Sanity of the active-id bookkeeping for one role: a tracked id is below
the fresh-id counter, belongs to some message, and every message carrying it
is an in-progress message of that role. -/
def ActOk (s : AppState) (r : Role) : Prop :=
  match getActive s r with
  | none => True
  | some tid =>
      tid < s.nextId ∧ (∃ x ∈ s.messages, x.id = tid) ∧
      ∀ x ∈ s.messages, x.id = tid → x.role = r ∧ x.isPartial = true

instance (s : AppState) (r : Role) : Decidable (ActOk s r) :=
  match hg : getActive s r with
  | none => isTrue (by unfold ActOk; rw [hg]; trivial)
  | some tid =>
      decidable_of_iff
        (tid < s.nextId ∧ (∃ x ∈ s.messages, x.id = tid) ∧
          ∀ x ∈ s.messages, x.id = tid → x.role = r ∧ x.isPartial = true)
        (by unfold ActOk; rw [hg])

/-- Coherence of a state: all message ids are below the fresh-id counter and
both roles' active-id trackers are sane. -/
def Coherent (s : AppState) : Prop :=
  (∀ x ∈ s.messages, x.id < s.nextId) ∧ ActOk s Role.user ∧ ActOk s Role.model

instance (s : AppState) : Decidable (Coherent s) := by
  unfold Coherent; infer_instance

/-- One `setMessages` transition: leave the list alone, push one message at
the end, or rewrite one cell in place keeping its id and role. -/
def SingleEdit (old new : List Message) : Prop :=
  new = old ∨ (∃ m, new = old ++ [m]) ∨
  ∃ p₁ m m' p₂, old = p₁ ++ m :: p₂ ∧ new = p₁ ++ m' :: p₂ ∧
    m'.id = m.id ∧ m'.role = m.role

/-- The id-and-role skeleton of `old` is an initial segment of that of
`new`: nothing was deleted, no id or role changed, order was kept. -/
def SkeletonLe (old new : List Message) : Prop :=
  ∃ t, idRoles new = idRoles old ++ t

/-- The state mid-turn before any non-whitespace text arrived: like the base
state, but with the role's buffer holding the running concatenation. -/
def stateN (r : Role) (s₀ : AppState) (c : String) : AppState :=
  setBuffer s₀ r c

/-- The state mid-turn after non-whitespace text arrived: the buffer holds
the running concatenation, a fresh in-progress message carrying it has been
pushed, and the role's tracker points at that message. -/
def stateS (r : Role) (s₀ : AppState) (c : String) : AppState :=
  setActive
    { setBuffer s₀ r c with
        messages := s₀.messages ++ [{ id := s₀.nextId, role := r, text := c, isPartial := true }]
        nextId := s₀.nextId + 1 }
    r (some s₀.nextId)

/-- The `turnComplete` branch belonging to one role. -/
def commitFor (r : Role) (s : AppState) : AppState :=
  match r with
  | Role.user => commitUser s
  | Role.model => commitModel s

/-- Modelled from the spec's words for the export format: each message is a
block holding its text behind a role prefix tag. -/
def exportBlock (m : Message) : String :=
  (if m.role = Role.user then "[User]: " else "[AI]: ") ++ m.text

/-- Modelled from the spec's words: no action on an empty list, otherwise
the blocks in original order separated by one blank line. -/
def exportText (messages : List Message) : Option String :=
  if messages = [] then none
  else some (String.intercalate "\n\n" (messages.map exportBlock))

/-! ## List-level lemmas about `replaceFirst` and role projections -/

/-- `replaceFirst` never changes the id-and-role skeleton. -/
theorem replaceFirst_idRoles (tid : Nat) (t : String) (fin : Bool) :
    ∀ l : List Message, idRoles (replaceFirst tid t fin l) = idRoles l := by
  intro l
  induction l with
  | nil => rfl
  | cons m ms ih =>
    by_cases h : m.id = tid
    · simp [replaceFirst, h, idRoles]
    · simp [replaceFirst, h, idRoles] at ih ⊢
      exact ih

/-- Rewriting at an id that is absent from a prefix rewrites the first
matching cell after that prefix. -/
theorem replaceFirst_append_single (tid : Nat) (t : String) (fin : Bool)
    (m : Message) (l₂ : List Message) (hm : m.id = tid) :
    ∀ l₁ : List Message, (∀ x ∈ l₁, x.id ≠ tid) →
      replaceFirst tid t fin (l₁ ++ m :: l₂)
        = l₁ ++ { m with text := t, isPartial := !fin } :: l₂ := by
  intro l₁
  induction l₁ with
  | nil => intro _; simp [replaceFirst, hm]
  | cons a as ih =>
    intro h
    have ha : a.id ≠ tid := h a (by simp)
    have has : ∀ x ∈ as, x.id ≠ tid := fun x hx => h x (by simp [hx])
    simp [replaceFirst, ha, ih has]

/-- A first-occurrence decomposition at a present id. -/
theorem firstOccurrence {tid : Nat} :
    ∀ l : List Message, (∃ x ∈ l, x.id = tid) →
      ∃ l₁ m l₂, l = l₁ ++ m :: l₂ ∧ m.id = tid ∧ ∀ x ∈ l₁, x.id ≠ tid := by
  intro l
  induction l with
  | nil => rintro ⟨x, hx, _⟩; cases hx
  | cons a as ih =>
    intro hex
    by_cases ha : a.id = tid
    · exact ⟨[], a, as, by simp, ha, by simp⟩
    · have hex' : ∃ x ∈ as, x.id = tid := by
        rcases hex with ⟨x, hx, hid⟩
        rcases List.mem_cons.mp hx with h | h
        · exact absurd (h ▸ hid) ha
        · exact ⟨x, h, hid⟩
      rcases ih hex' with ⟨l₁, m, l₂, hdec, hm, hfirst⟩
      refine ⟨a :: l₁, m, l₂, by simp [hdec], hm, ?_⟩
      intro x hx
      rcases List.mem_cons.mp hx with h | h
      · exact h ▸ ha
      · exact hfirst x h

/-- A member of the rewritten list whose id differs from the target was
already a member. -/
theorem mem_of_mem_replaceFirst {tid : Nat} {t : String} {fin : Bool}
    {x : Message} (hne : x.id ≠ tid) :
    ∀ l : List Message, x ∈ replaceFirst tid t fin l → x ∈ l := by
  intro l
  induction l with
  | nil => intro h; cases h
  | cons a as ih =>
    by_cases ha : a.id = tid
    · intro h
      simp only [replaceFirst, if_pos ha] at h
      rcases List.mem_cons.mp h with h | h
      · exact absurd (by rw [h]; exact ha) hne
      · exact List.mem_cons_of_mem a h
    · intro h
      simp only [replaceFirst, if_neg ha] at h
      rcases List.mem_cons.mp h with h | h
      · subst h; exact List.mem_cons_self x as
      · exact List.mem_cons_of_mem a (ih h)

/-- A member whose id differs from the target survives rewriting unchanged. -/
theorem mem_replaceFirst_of_mem {tid : Nat} {t : String} {fin : Bool}
    {x : Message} (hne : x.id ≠ tid) :
    ∀ l : List Message, x ∈ l → x ∈ replaceFirst tid t fin l := by
  intro l
  induction l with
  | nil => intro h; cases h
  | cons a as ih =>
    intro h
    by_cases ha : a.id = tid
    · rcases List.mem_cons.mp h with h | h
      · exact absurd (by rw [h]; exact ha) hne
      · simp only [replaceFirst, if_pos ha]
        exact List.mem_cons_of_mem _ h
    · simp only [replaceFirst, if_neg ha]
      rcases List.mem_cons.mp h with h | h
      · subst h; exact List.mem_cons_self x _
      · exact List.mem_cons_of_mem a (ih h)

/-- Every member of the rewritten list shares id and role with a member of
the original list. -/
theorem replaceFirst_mem_idRole {tid : Nat} {t : String} {fin : Bool}
    {x : Message} :
    ∀ l : List Message, x ∈ replaceFirst tid t fin l →
      ∃ y ∈ l, x.id = y.id ∧ x.role = y.role := by
  intro l
  induction l with
  | nil => intro h; cases h
  | cons a as ih =>
    by_cases ha : a.id = tid
    · intro h
      simp only [replaceFirst, if_pos ha] at h
      rcases List.mem_cons.mp h with h | h
      · exact ⟨a, List.mem_cons_self a as, by simp [h]⟩
      · exact ⟨x, List.mem_cons_of_mem a h, rfl, rfl⟩
    · intro h
      simp only [replaceFirst, if_neg ha] at h
      rcases List.mem_cons.mp h with h | h
      · exact ⟨a, List.mem_cons_self a as, by simp [h]⟩
      · rcases ih h with ⟨y, hy, hxy⟩
        exact ⟨y, List.mem_cons_of_mem a hy, hxy⟩

/-- Role projection distributes over append. -/
theorem roleMessages_append (r : Role) (l₁ l₂ : List Message) :
    roleMessages r (l₁ ++ l₂) = roleMessages r l₁ ++ roleMessages r l₂ := by
  simp [roleMessages, List.filter_append]

/-- Rewriting at an id whose carriers are all of another role leaves a
role's projection untouched. -/
theorem roleMessages_replaceFirst_ne (r : Role) (tid : Nat) (t : String)
    (fin : Bool) :
    ∀ l : List Message, (∀ x ∈ l, x.id = tid → x.role ≠ r) →
      roleMessages r (replaceFirst tid t fin l) = roleMessages r l := by
  intro l
  induction l with
  | nil => intro _; rfl
  | cons a as ih =>
    intro h
    have has : ∀ x ∈ as, x.id = tid → x.role ≠ r :=
      fun x hx => h x (List.mem_cons_of_mem a hx)
    by_cases ha : a.id = tid
    · have hra : a.role ≠ r := h a (List.mem_cons_self a as) ha
      simp [replaceFirst, ha, roleMessages, hra]
    · by_cases hr : a.role = r
      · simp [replaceFirst, ha, roleMessages, hr] at ih ⊢
        exact ih has
      · simp [replaceFirst, ha, roleMessages, hr] at ih ⊢
        exact ih has

/-- Rewriting at an id whose carriers are all of role `r` commutes with
projecting onto role `r`. -/
theorem roleMessages_replaceFirst_comm (r : Role) (tid : Nat) (t : String)
    (fin : Bool) :
    ∀ l : List Message, (∀ x ∈ l, x.id = tid → x.role = r) →
      roleMessages r (replaceFirst tid t fin l)
        = replaceFirst tid t fin (roleMessages r l) := by
  intro l
  induction l with
  | nil => intro _; rfl
  | cons a as ih =>
    intro h
    have has : ∀ x ∈ as, x.id = tid → x.role = r :=
      fun x hx => h x (List.mem_cons_of_mem a hx)
    by_cases ha : a.id = tid
    · have hra : a.role = r := h a (List.mem_cons_self a as) ha
      simp [replaceFirst, ha, roleMessages, hra]
    · by_cases hr : a.role = r
      · simp [replaceFirst, ha, roleMessages, hr] at ih ⊢
        exact ih has
      · simp [replaceFirst, ha, roleMessages, hr] at ih ⊢
        exact ih has

/-- The Boolean membership test used by `applyUpdate`, as an existential. -/
theorem any_id_iff (l : List Message) (tid : Nat) :
    (l.any (fun m => m.id == tid) = true) ↔ ∃ x ∈ l, x.id = tid := by
  simp [List.any_eq_true]

/-! ## State-level projection lemmas -/

@[simp] theorem setActive_messages (s : AppState) (r : Role) (v : Option Nat) :
    (setActive s r v).messages = s.messages := by cases r <;> rfl

@[simp] theorem setActive_inputText (s : AppState) (r : Role) (v : Option Nat) :
    (setActive s r v).currentInputText = s.currentInputText := by cases r <;> rfl

@[simp] theorem setActive_outputText (s : AppState) (r : Role) (v : Option Nat) :
    (setActive s r v).currentOutputText = s.currentOutputText := by cases r <;> rfl

@[simp] theorem setActive_nextId (s : AppState) (r : Role) (v : Option Nat) :
    (setActive s r v).nextId = s.nextId := by cases r <;> rfl

@[simp] theorem setActive_error (s : AppState) (r : Role) (v : Option Nat) :
    (setActive s r v).error = s.error := by cases r <;> rfl

@[simp] theorem getActive_setActive_self (s : AppState) (r : Role) (v : Option Nat) :
    getActive (setActive s r v) r = v := by cases r <;> rfl

theorem getActive_setActive_ne (s : AppState) (r r' : Role) (v : Option Nat)
    (h : r ≠ r') : getActive (setActive s r v) r' = getActive s r' := by
  cases r <;> cases r' <;> first | rfl | exact absurd rfl h

@[simp] theorem getBuffer_setActive (s : AppState) (r r' : Role) (v : Option Nat) :
    getBuffer (setActive s r v) r' = getBuffer s r' := by
  cases r <;> cases r' <;> rfl

@[simp] theorem applyUpdate_inputText (role : Role) (t : String) (f : Bool)
    (tid : Nat) (s : AppState) :
    (applyUpdate role t f tid s).currentInputText = s.currentInputText := by
  unfold applyUpdate; split <;> simp

@[simp] theorem applyUpdate_outputText (role : Role) (t : String) (f : Bool)
    (tid : Nat) (s : AppState) :
    (applyUpdate role t f tid s).currentOutputText = s.currentOutputText := by
  unfold applyUpdate; split <;> simp

@[simp] theorem applyUpdate_error (role : Role) (t : String) (f : Bool)
    (tid : Nat) (s : AppState) :
    (applyUpdate role t f tid s).error = s.error := by
  unfold applyUpdate; split <;> simp

@[simp] theorem applyUpdate_nextId (role : Role) (t : String) (f : Bool)
    (tid : Nat) (s : AppState) :
    (applyUpdate role t f tid s).nextId = s.nextId := by
  unfold applyUpdate; split <;> simp

theorem updateMessage_inputText (role : Role) (t : String) (f : Bool) (s : AppState) :
    (updateMessage role t f s).currentInputText = s.currentInputText := by
  unfold updateMessage; split <;> [simp; split <;> simp]

theorem updateMessage_outputText (role : Role) (t : String) (f : Bool) (s : AppState) :
    (updateMessage role t f s).currentOutputText = s.currentOutputText := by
  unfold updateMessage; split <;> [simp; split <;> simp]

theorem updateMessage_active_some (role : Role) (tid : Nat) (t : String) (f : Bool)
    (s : AppState) (hg : getActive s role = some tid) :
    updateMessage role t f s = applyUpdate role t f tid s := by
  unfold updateMessage; rw [hg]

theorem updateMessage_none_ws (role : Role) (t : String) (f : Bool) (s : AppState)
    (hg : getActive s role = none) (hw : trimNonempty t = false) :
    updateMessage role t f s = s := by
  unfold updateMessage; rw [hg]; simp [hw]

theorem updateMessage_none_gen (role : Role) (t : String) (f : Bool) (s : AppState)
    (hg : getActive s role = none) (hw : trimNonempty t = true) :
    updateMessage role t f s
      = applyUpdate role t f s.nextId
          (setActive { s with nextId := s.nextId + 1 } role (some s.nextId)) := by
  unfold updateMessage; rw [hg]; simp [hw]

theorem applyUpdate_found (role : Role) (t : String) (f : Bool) (tid : Nat)
    (s : AppState) (hmem : ∃ x ∈ s.messages, x.id = tid) :
    applyUpdate role t f tid s
      = (if f then setActive { s with messages := replaceFirst tid t f s.messages } role none
         else { s with messages := replaceFirst tid t f s.messages }) := by
  have hany : s.messages.any (fun m => m.id == tid) = true := (any_id_iff _ _).mpr hmem
  simp [applyUpdate, hany]

theorem applyUpdate_notfound (role : Role) (t : String) (f : Bool) (tid : Nat)
    (s : AppState) (hmem : ∀ x ∈ s.messages, x.id ≠ tid) :
    applyUpdate role t f tid s
      = (if f then
           setActive { s with messages :=
             s.messages ++ [{ id := tid, role := role, text := t, isPartial := !f }] } role none
         else { s with messages :=
             s.messages ++ [{ id := tid, role := role, text := t, isPartial := !f }] }) := by
  have hany : s.messages.any (fun m => m.id == tid) = false := by
    simp only [List.any_eq_false]
    intro x hx; simpa using hmem x hx
  simp [applyUpdate, hany]

/-! ## Message-list evolution: single edits and skeleton extension -/



theorem skeletonLe_rfl (l : List Message) : SkeletonLe l l := ⟨[], by simp⟩

theorem skeletonLe_trans {a b c : List Message}
    (h₁ : SkeletonLe a b) (h₂ : SkeletonLe b c) : SkeletonLe a c := by
  rcases h₁ with ⟨t₁, h₁⟩
  rcases h₂ with ⟨t₂, h₂⟩
  exact ⟨t₁ ++ t₂, by rw [h₂, h₁, List.append_assoc]⟩

theorem singleEdit_skeletonLe {old new : List Message}
    (h : SingleEdit old new) : SkeletonLe old new := by
  rcases h with h | ⟨m, h⟩ | ⟨p₁, m, m', p₂, ho, hn, hid, hrole⟩
  · exact h ▸ skeletonLe_rfl old
  · exact ⟨[(m.id, m.role)], by simp [h, idRoles]⟩
  · refine ⟨[], ?_⟩
    simp only [ho, hn, idRoles, List.map_append, List.map_cons, List.append_nil]
    simp [hid, hrole]

/-- The message list produced by `applyUpdate`. -/
theorem applyUpdate_messages (role : Role) (t : String) (f : Bool) (tid : Nat)
    (s : AppState) :
    (applyUpdate role t f tid s).messages =
      if s.messages.any (fun m => m.id == tid) then replaceFirst tid t f s.messages
      else s.messages ++ [{ id := tid, role := role, text := t, isPartial := !f }] := by
  unfold applyUpdate
  split <;> simp

/-- Every `updateMessage` call performs a single edit on the message list. -/
theorem updateMessage_singleEdit (role : Role) (t : String) (f : Bool)
    (s : AppState) : SingleEdit s.messages (updateMessage role t f s).messages := by
  have key : ∀ (tid : Nat) (s' : AppState), s'.messages = s.messages →
      SingleEdit s.messages (applyUpdate role t f tid s').messages := by
    intro tid s' hs'
    rw [applyUpdate_messages, hs']
    by_cases hany : s.messages.any (fun m => m.id == tid) = true
    · rw [if_pos hany]
      rcases firstOccurrence s.messages ((any_id_iff _ _).mp hany) with ⟨p₁, m, p₂, hdec, hm, hfirst⟩
      refine Or.inr (Or.inr ⟨p₁, m, { m with text := t, isPartial := !f }, p₂, hdec, ?_, rfl, rfl⟩)
      rw [hdec, replaceFirst_append_single tid t f m p₂ hm p₁ hfirst]
    · rw [if_neg hany]
      exact Or.inr (Or.inl ⟨_, rfl⟩)
  unfold updateMessage
  cases hg : getActive s role with
  | some tid => exact key tid s rfl
  | none =>
    by_cases hw : trimNonempty t = true
    · simp only [hw, if_true]
      exact key s.nextId _ (by simp)
    · simp only [Bool.not_eq_true] at hw
      simp only [hw, Bool.false_eq_true, if_false]
      exact Or.inl rfl

theorem updateMessage_skeletonLe (role : Role) (t : String) (f : Bool)
    (s : AppState) : SkeletonLe s.messages (updateMessage role t f s).messages :=
  singleEdit_skeletonLe (updateMessage_singleEdit role t f s)

theorem handleInput_skeletonLe (t : Option String) (s : AppState) :
    SkeletonLe s.messages (handleInput t s).messages := by
  unfold handleInput
  cases t with
  | none => exact skeletonLe_rfl _
  | some text =>
    by_cases h : text = ""
    · simp only [h, if_pos rfl]; exact skeletonLe_rfl _
    · simp only [if_neg h]
      exact updateMessage_skeletonLe _ _ _ _

theorem handleOutput_skeletonLe (t : Option String) (s : AppState) :
    SkeletonLe s.messages (handleOutput t s).messages := by
  unfold handleOutput
  cases t with
  | none => exact skeletonLe_rfl _
  | some text =>
    by_cases h : text = ""
    · simp only [h, if_pos rfl]; exact skeletonLe_rfl _
    · simp only [if_neg h]
      exact updateMessage_skeletonLe _ _ _ _

theorem commitUser_skeletonLe (s : AppState) :
    SkeletonLe s.messages (commitUser s).messages := by
  unfold commitUser
  split
  · exact updateMessage_skeletonLe _ _ _ _
  · exact skeletonLe_rfl _

theorem commitModel_skeletonLe (s : AppState) :
    SkeletonLe s.messages (commitModel s).messages := by
  unfold commitModel
  split
  · exact updateMessage_skeletonLe _ _ _ _
  · exact skeletonLe_rfl _

theorem handleInterrupted_skeletonLe (s : AppState) :
    SkeletonLe s.messages (handleInterrupted s).messages := by
  unfold handleInterrupted
  split
  · exact updateMessage_skeletonLe _ _ _ _
  · exact skeletonLe_rfl _

theorem handleTurnComplete_skeletonLe (s : AppState) :
    SkeletonLe s.messages (handleTurnComplete s).messages :=
  skeletonLe_trans (commitUser_skeletonLe s) (commitModel_skeletonLe _)

/-- The whole `onmessage` callback only extends the skeleton. -/
theorem onmessage_skeletonLe (msg : LiveServerMessage) (s : AppState) :
    SkeletonLe s.messages (onmessage msg s).messages := by
  simp only [onmessage]
  have h12 := skeletonLe_trans (handleInput_skeletonLe msg.inputTranscription s)
    (handleOutput_skeletonLe msg.outputTranscription (handleInput msg.inputTranscription s))
  have h3 : SkeletonLe s.messages
      ((if msg.turnComplete then
          handleTurnComplete
            (handleOutput msg.outputTranscription (handleInput msg.inputTranscription s))
        else
          handleOutput msg.outputTranscription
            (handleInput msg.inputTranscription s))).messages := by
    split
    · exact skeletonLe_trans h12 (handleTurnComplete_skeletonLe _)
    · exact h12
  split
  · exact skeletonLe_trans h3 (handleInterrupted_skeletonLe _)
  · exact h3

/-! ## Running a sequence of transcription fragments for one role -/

/-- Whitespace detection distributes over string append. -/
theorem trimNonempty_append (a b : String) :
    trimNonempty (a ++ b) = (trimNonempty a || trimNonempty b) := by
  simp [trimNonempty]

@[simp] theorem getBuffer_setBuffer_self (s : AppState) (r : Role) (c : String) :
    getBuffer (setBuffer s r c) r = c := by cases r <;> rfl

@[simp] theorem getActive_setBuffer (s : AppState) (r r' : Role) (c : String) :
    getActive (setBuffer s r c) r' = getActive s r' := by cases r <;> cases r' <;> rfl

@[simp] theorem setBuffer_setBuffer (s : AppState) (r : Role) (a b : String) :
    setBuffer (setBuffer s r a) r b = setBuffer s r b := by cases r <;> rfl

@[simp] theorem setBuffer_messages (s : AppState) (r : Role) (c : String) :
    (setBuffer s r c).messages = s.messages := by cases r <;> rfl

@[simp] theorem setBuffer_nextId (s : AppState) (r : Role) (c : String) :
    (setBuffer s r c).nextId = s.nextId := by cases r <;> rfl

theorem onmessage_frag_user (f : String) (s : AppState) :
    onmessage (fragEvent Role.user f) s = handleInput (some f) s := rfl

theorem onmessage_frag_model (f : String) (s : AppState) :
    onmessage (fragEvent Role.model f) s = handleOutput (some f) s := rfl

/-- A non-empty fragment for role `r` extends the buffer and calls
`updateMessage` on the extended buffer. -/
theorem onmessage_frag_ne (r : Role) (f : String) (s : AppState) (hf : f ≠ "") :
    onmessage (fragEvent r f) s
      = updateMessage r (getBuffer s r ++ f) false (setBuffer s r (getBuffer s r ++ f)) := by
  cases r
  · rw [onmessage_frag_user]; simp [handleInput, hf, getBuffer, setBuffer]
  · rw [onmessage_frag_model]; simp [handleOutput, hf, getBuffer, setBuffer]

/-- An empty fragment is ignored. -/
theorem onmessage_frag_empty (r : Role) (s : AppState) :
    onmessage (fragEvent r "") s = s := by
  cases r
  · rw [onmessage_frag_user]; simp [handleInput]
  · rw [onmessage_frag_model]; simp [handleOutput]



theorem stateN_self (r : Role) (s₀ : AppState) : stateN r s₀ (getBuffer s₀ r) = s₀ := by
  cases r <;> rfl

theorem processFragments_nil (r : Role) (s : AppState) :
    processFragments r [] s = s := rfl

theorem processFragments_cons (r : Role) (f : String) (fs : List String) (s : AppState) :
    processFragments r (f :: fs) s = processFragments r fs (onmessage (fragEvent r f) s) := rfl

/-- One fragment starting from an `N` state. -/
theorem stepN (r : Role) (s₀ : AppState) (c f : String)
    (hact : getActive s₀ r = none)
    (hfresh : ∀ x ∈ s₀.messages, x.id ≠ s₀.nextId)
    (hc : trimNonempty c = false) :
    onmessage (fragEvent r f) (stateN r s₀ c)
      = if trimNonempty (c ++ f) then stateS r s₀ (c ++ f) else stateN r s₀ (c ++ f) := by
  by_cases hf : f = ""
  · subst hf
    rw [onmessage_frag_empty]
    simp [hc]
  · rw [onmessage_frag_ne r f _ hf]
    have hb : getBuffer (stateN r s₀ c) r = c := getBuffer_setBuffer_self _ _ _
    rw [hb]
    have hsb : setBuffer (stateN r s₀ c) r (c ++ f) = stateN r s₀ (c ++ f) :=
      setBuffer_setBuffer _ _ _ _
    rw [hsb]
    have hact' : getActive (stateN r s₀ (c ++ f)) r = none := by
      rw [stateN, getActive_setBuffer]; exact hact
    by_cases hw : trimNonempty (c ++ f) = true
    · rw [if_pos hw]
      rw [updateMessage_none_gen r _ false _ hact' hw]
      have hnext : (stateN r s₀ (c ++ f)).nextId = s₀.nextId := setBuffer_nextId _ _ _
      rw [hnext]
      set s' := setActive { stateN r s₀ (c ++ f) with nextId := s₀.nextId + 1 } r
        (some s₀.nextId) with hs'
      have hmsg : s'.messages = s₀.messages := by
        rw [hs', setActive_messages]; exact setBuffer_messages _ _ _
      have hnf : ∀ x ∈ s'.messages, x.id ≠ s₀.nextId := by
        rw [hmsg]; exact hfresh
      rw [applyUpdate_notfound _ _ _ _ _ hnf]
      simp only [Bool.false_eq_true, if_false, hmsg]
      cases r <;> simp [hs', stateN, stateS, setBuffer, setActive]
    · simp only [Bool.not_eq_true] at hw
      rw [if_neg (by simp [hw])]
      exact updateMessage_none_ws _ _ _ _ hact' hw

/-- One fragment starting from an `S` state. -/
theorem stepS (r : Role) (s₀ : AppState) (c f : String)
    (hfresh : ∀ x ∈ s₀.messages, x.id ≠ s₀.nextId) :
    onmessage (fragEvent r f) (stateS r s₀ c) = stateS r s₀ (c ++ f) := by
  by_cases hf : f = ""
  · subst hf
    rw [onmessage_frag_empty]
    simp
  · rw [onmessage_frag_ne r f _ hf]
    have hb : getBuffer (stateS r s₀ c) r = c := by
      cases r <;> rfl
    rw [hb]
    have hact' : getActive (setBuffer (stateS r s₀ c) r (c ++ f)) r = some s₀.nextId := by
      rw [getActive_setBuffer]
      rw [stateS, getActive_setActive_self]
    rw [updateMessage_active_some _ _ _ _ _ hact']
    have hmsg : (setBuffer (stateS r s₀ c) r (c ++ f)).messages
        = s₀.messages ++ [{ id := s₀.nextId, role := r, text := c, isPartial := true }] := by
      rw [setBuffer_messages, stateS, setActive_messages]
    have hmem : ∃ x ∈ (setBuffer (stateS r s₀ c) r (c ++ f)).messages, x.id = s₀.nextId := by
      rw [hmsg]
      refine ⟨{ id := s₀.nextId, role := r, text := c, isPartial := true }, ?_, rfl⟩
      simp
    rw [applyUpdate_found _ _ _ _ _ hmem]
    simp only [Bool.false_eq_true, if_false]
    rw [hmsg, replaceFirst_append_single s₀.nextId (c ++ f) false _ [] rfl s₀.messages hfresh]
    cases r <;> simp [stateS, stateN, setBuffer, setActive]

/-- Running fragments from an `S` state stays in `S`, concatenating. -/
theorem runS (r : Role) (s₀ : AppState)
    (hfresh : ∀ x ∈ s₀.messages, x.id ≠ s₀.nextId) :
    ∀ (frags : List String) (c : String),
      processFragments r frags (stateS r s₀ c)
        = stateS r s₀ (frags.foldl (fun a f => a ++ f) c) := by
  intro frags
  induction frags with
  | nil => intro c; rfl
  | cons f fs ih =>
    intro c
    rw [processFragments_cons, stepS r s₀ c f hfresh, ih]
    rfl

/-- Running fragments from an `N` state: either no non-whitespace text ever
arrived and the run only grew the buffer, or it did and the run is in `S`. -/
theorem runN (r : Role) (s₀ : AppState)
    (hact : getActive s₀ r = none)
    (hfresh : ∀ x ∈ s₀.messages, x.id ≠ s₀.nextId) :
    ∀ (frags : List String) (c : String), trimNonempty c = false →
      (processFragments r frags (stateN r s₀ c)
          = stateN r s₀ (frags.foldl (fun a f => a ++ f) c)
        ∧ trimNonempty (frags.foldl (fun a f => a ++ f) c) = false)
      ∨ processFragments r frags (stateN r s₀ c)
          = stateS r s₀ (frags.foldl (fun a f => a ++ f) c) := by
  intro frags
  induction frags with
  | nil => intro c hc; exact Or.inl ⟨rfl, hc⟩
  | cons f fs ih =>
    intro c hc
    rw [processFragments_cons, stepN r s₀ c f hact hfresh hc]
    by_cases hw : trimNonempty (c ++ f) = true
    · rw [if_pos hw, runS r s₀ hfresh fs (c ++ f)]
      exact Or.inr rfl
    · simp only [Bool.not_eq_true] at hw
      rw [if_neg (by simp [hw])]
      exact ih (c ++ f) hw

/-! ## Finalizing the in-progress message of a role -/

@[simp] theorem getActive_messages_update (s : AppState) (r : Role) (X : List Message) :
    getActive { s with messages := X } r = getActive s r := by cases r <;> rfl

@[simp] theorem getActive_outText_update (s : AppState) (r : Role) (c : String) :
    getActive { s with currentOutputText := c } r = getActive s r := by cases r <;> rfl

@[simp] theorem getActive_inText_update (s : AppState) (r : Role) (c : String) :
    getActive { s with currentInputText := c } r = getActive s r := by cases r <;> rfl

theorem onmessage_turnComplete (s : AppState) :
    onmessage turnCompleteEvent s = handleTurnComplete s := rfl

theorem onmessage_interrupt (s : AppState) :
    onmessage interruptEvent s = handleInterrupted s := rfl

/-- Core of turn finalization: with the role's tracker pointing at a present
id whose carriers are in-progress messages of that role, a final
`updateMessage` rewrites exactly the first carrier, and this commutes with
the role projection. -/
theorem commit_core (r : Role) (s : AppState) (tid : Nat) (t : String)
    (hmem : ∃ x ∈ s.messages, x.id = tid)
    (hall : ∀ x ∈ s.messages, x.id = tid → x.role = r ∧ x.isPartial = true)
    (hact : getActive s r = some tid) :
    updateMessage r t true s
        = setActive { s with messages := replaceFirst tid t true s.messages } r none ∧
    ∃ p₁ m p₂,
      roleMessages r s.messages = p₁ ++ m :: p₂ ∧
      m.id = tid ∧ m.isPartial = true ∧ (∀ x ∈ p₁, x.id ≠ tid) ∧
      roleMessages r (replaceFirst tid t true s.messages)
        = p₁ ++ { m with text := t, isPartial := false } :: p₂ := by
  constructor
  · rw [updateMessage_active_some _ _ _ _ _ hact, applyUpdate_found _ _ _ _ _ hmem]
    simp
  · have hcomm : roleMessages r (replaceFirst tid t true s.messages)
        = replaceFirst tid t true (roleMessages r s.messages) :=
      roleMessages_replaceFirst_comm r tid t true s.messages
        (fun x hx hid => (hall x hx hid).1)
    rcases hmem with ⟨x₀, hx₀, hid₀⟩
    have hx₀p : x₀ ∈ roleMessages r s.messages := by
      rw [roleMessages, List.mem_filter]
      exact ⟨hx₀, by simp [(hall x₀ hx₀ hid₀).1]⟩
    rcases firstOccurrence (roleMessages r s.messages) ⟨x₀, hx₀p, hid₀⟩
      with ⟨p₁, m, p₂, hdec, hm, hfirst⟩
    have hmmem : m ∈ s.messages := by
      have : m ∈ roleMessages r s.messages := by rw [hdec]; simp
      exact (List.mem_filter.mp this).1
    refine ⟨p₁, m, p₂, hdec, hm, (hall m hmmem hm).2, hfirst, ?_⟩
    rw [hcomm, hdec, replaceFirst_append_single tid t true m p₂ hm p₁ hfirst]
    rfl

/-- C5 (amended): an interruption signal, in a coherent state where the
model buffer is non-empty and the model tracker points at an in-progress
message, finalizes exactly that message with the accumulated text followed
by the fixed marker, and clears the model buffer and tracker. -/
theorem interrupt_finalizes_model (s : AppState) (tid : Nat)
    (hcoh : Coherent s)
    (hbuf : s.currentOutputText ≠ "")
    (hact : s.activeModelId = some tid) :
    ∃ p₁ m p₂,
      roleMessages Role.model s.messages = p₁ ++ m :: p₂ ∧
      m.id = tid ∧ m.isPartial = true ∧ (∀ x ∈ p₁, x.id ≠ tid) ∧
      roleMessages Role.model (onmessage interruptEvent s).messages
        = p₁ ++ { m with text := s.currentOutputText ++ " ...", isPartial := false } :: p₂ ∧
      (onmessage interruptEvent s).currentOutputText = "" ∧
      (onmessage interruptEvent s).activeModelId = none := by
  have hactm : getActive s Role.model = some tid := hact
  have hAct : ActOk s Role.model := hcoh.2.2
  rw [ActOk, hactm] at hAct
  obtain ⟨-, hmem, hall⟩ := hAct
  obtain ⟨heq, p₁, m, p₂, hdec, hm, hp, hfirst, hproj⟩ :=
    commit_core Role.model s tid (s.currentOutputText ++ " ...") hmem hall hactm
  rw [onmessage_interrupt]
  unfold handleInterrupted
  rw [if_pos hbuf, heq]
  refine ⟨p₁, m, p₂, hdec, hm, hp, hfirst, ?_, rfl, ?_⟩
  · simpa [setActive] using hproj
  · simp [setActive]

/-! ## An `updateMessage` for the other role preserves a role's view -/

/-- Canonical form of the id-generating branch of `updateMessage`. -/
theorem updateMessage_gen_eq (r' : Role) (t : String) (f : Bool) (s : AppState)
    (hg : getActive s r' = none) (hw : trimNonempty t = true)
    (hfr : ∀ x ∈ s.messages, x.id ≠ s.nextId) :
    updateMessage r' t f s
      = setActive
          { s with
              messages := s.messages ++ [{ id := s.nextId, role := r', text := t, isPartial := !f }]
              nextId := s.nextId + 1 }
          r' (if f then none else some s.nextId) := by
  rw [updateMessage_none_gen _ _ _ _ hg hw]
  have hne : ∀ x ∈ (setActive { s with nextId := s.nextId + 1 } r' (some s.nextId)).messages,
      x.id ≠ s.nextId := by simpa using hfr
  rw [applyUpdate_notfound _ _ _ _ _ hne]
  cases f <;> cases r' <;> simp [setActive]

theorem updateMessage_other (r r' : Role) (hrr : r' ≠ r) (t : String) (f : Bool)
    (s : AppState) (n : Nat)
    (hsafe : ∀ tid', getActive s r' = some tid' →
      (∃ x ∈ s.messages, x.id = tid') ∧ ∀ x ∈ s.messages, x.id = tid' → x.role = r')
    (hfresh : ∀ x ∈ s.messages, x.id < s.nextId)
    (hn : n < s.nextId)
    (hnact : ∀ tid', getActive s r' = some tid' → tid' ≠ n) :
    roleMessages r (updateMessage r' t f s).messages = roleMessages r s.messages ∧
    getActive (updateMessage r' t f s) r = getActive s r ∧
    (updateMessage r' t f s).currentInputText = s.currentInputText ∧
    (updateMessage r' t f s).currentOutputText = s.currentOutputText ∧
    (∀ x ∈ (updateMessage r' t f s).messages, x.id = n → x ∈ s.messages) ∧
    (∀ x ∈ s.messages, x.id = n → x ∈ (updateMessage r' t f s).messages) := by
  cases hg : getActive s r' with
  | some tid' =>
    obtain ⟨hmem', hall'⟩ := hsafe tid' hg
    have htn : tid' ≠ n := hnact tid' hg
    rw [updateMessage_active_some _ _ _ _ _ hg, applyUpdate_found _ _ _ _ _ hmem']
    have hrf : roleMessages r (replaceFirst tid' t f s.messages) = roleMessages r s.messages :=
      roleMessages_replaceFirst_ne r tid' t f s.messages
        (fun x hx hid => by rw [hall' x hx hid]; exact hrr)
    have hfwd : ∀ x ∈ replaceFirst tid' t f s.messages, x.id = n → x ∈ s.messages :=
      fun x hx hxn => mem_of_mem_replaceFirst (by rw [hxn]; exact fun h => htn h.symm) _ hx
    have hbwd : ∀ x ∈ s.messages, x.id = n → x ∈ replaceFirst tid' t f s.messages :=
      fun x hx hxn => mem_replaceFirst_of_mem (by rw [hxn]; exact fun h => htn h.symm) _ hx
    cases f
    · simpa using ⟨hrf, hfwd, hbwd⟩
    · refine ⟨by simpa using hrf, ?_, by simp, by simp, by simpa using hfwd,
        by simpa using hbwd⟩
      simp only [if_true]
      rw [getActive_setActive_ne _ _ _ _ hrr]
      cases r <;> rfl
  | none =>
    cases hw : trimNonempty t with
    | false =>
      rw [updateMessage_none_ws _ _ _ _ hg hw]
      exact ⟨rfl, rfl, rfl, rfl, fun x hx _ => hx, fun x hx _ => hx⟩
    | true =>
      have hfr : ∀ x ∈ s.messages, x.id ≠ s.nextId := fun x hx => Nat.ne_of_lt (hfresh x hx)
      rw [updateMessage_gen_eq r' t f s hg hw hfr]
      have hrm : roleMessages r (s.messages ++
          [{ id := s.nextId, role := r', text := t, isPartial := !f }])
          = roleMessages r s.messages := by
        rw [roleMessages_append]
        have h1 : roleMessages r [{ id := s.nextId, role := r', text := t, isPartial := !f }]
            = [] := by
          simp [roleMessages, List.filter, hrr]
        rw [h1, List.append_nil]
      refine ⟨?_, ?_, by simp, by simp, ?_, ?_⟩
      · simpa using hrm
      · rw [getActive_setActive_ne _ _ _ _ hrr]
        cases r <;> rfl
      · intro x hx hxn
        rw [setActive_messages] at hx
        rcases List.mem_append.mp hx with h | h
        · exact h
        · simp only [List.mem_singleton] at h
          subst h
          simp only at hxn
          omega
      · intro x hx hxn
        rw [setActive_messages]
        exact List.mem_append_left _ hx


theorem commitUser_pos (s : AppState) (h : s.currentInputText ≠ "") :
    commitUser s
      = { updateMessage Role.user s.currentInputText true s with currentInputText := "" } := by
  unfold commitUser; rw [if_pos h]

theorem commitUser_neg (s : AppState) (h : s.currentInputText = "") :
    commitUser s = s := by
  unfold commitUser; simp [h]

theorem commitModel_pos (s : AppState) (h : s.currentOutputText ≠ "") :
    commitModel s
      = { updateMessage Role.model s.currentOutputText true s with currentOutputText := "" } := by
  unfold commitModel; rw [if_pos h]

theorem commitModel_neg (s : AppState) (h : s.currentOutputText = "") :
    commitModel s = s := by
  unfold commitModel; simp [h]

/-- The other role's `turnComplete` branch preserves everything a role's
view depends on. -/
theorem commit_other (r r' : Role) (hrr : r' ≠ r) (s : AppState) (n : Nat)
    (hsafe : ∀ tid', getActive s r' = some tid' →
      (∃ x ∈ s.messages, x.id = tid') ∧ ∀ x ∈ s.messages, x.id = tid' → x.role = r')
    (hfresh : ∀ x ∈ s.messages, x.id < s.nextId)
    (hn : n < s.nextId)
    (hnact : ∀ tid', getActive s r' = some tid' → tid' ≠ n) :
    roleMessages r (commitFor r' s).messages = roleMessages r s.messages ∧
    getActive (commitFor r' s) r = getActive s r ∧
    getBuffer (commitFor r' s) r = getBuffer s r ∧
    (∀ x ∈ (commitFor r' s).messages, x.id = n → x ∈ s.messages) ∧
    (∀ x ∈ s.messages, x.id = n → x ∈ (commitFor r' s).messages) := by
  cases r' with
  | user =>
    have hr : r = Role.model := by
      cases r
      · exact absurd rfl hrr
      · rfl
    subst hr
    simp only [commitFor]
    by_cases hb : s.currentInputText = ""
    · rw [commitUser_neg s hb]
      exact ⟨rfl, rfl, rfl, fun x hx _ => hx, fun x hx _ => hx⟩
    · rw [commitUser_pos s hb]
      obtain ⟨hO1, hO2, hO3, hO4, hO5, hO6⟩ :=
        updateMessage_other Role.model Role.user hrr s.currentInputText true s n
          hsafe hfresh hn hnact
      exact ⟨hO1, hO2, hO4, hO5, hO6⟩
  | model =>
    have hr : r = Role.user := by
      cases r
      · rfl
      · exact absurd rfl hrr
    subst hr
    simp only [commitFor]
    by_cases hb : s.currentOutputText = ""
    · rw [commitModel_neg s hb]
      exact ⟨rfl, rfl, rfl, fun x hx _ => hx, fun x hx _ => hx⟩
    · rw [commitModel_pos s hb]
      obtain ⟨hO1, hO2, hO3, hO4, hO5, hO6⟩ :=
        updateMessage_other Role.user Role.model hrr s.currentOutputText true s n
          hsafe hfresh hn hnact
      exact ⟨hO1, hO2, hO3, hO5, hO6⟩

/-- C3 (amended): a turn-complete signal, in a coherent state where a role's
buffer is non-empty and its tracker points at an in-progress message,
marks exactly that message final with the buffered text, creates or changes
no other message of that role, and clears the buffer and the tracker. -/
theorem turnComplete_finalizes (r : Role) (s : AppState) (tid : Nat)
    (hcoh : Coherent s)
    (hbuf : getBuffer s r ≠ "")
    (hact : getActive s r = some tid) :
    ∃ p₁ m p₂,
      roleMessages r s.messages = p₁ ++ m :: p₂ ∧
      m.id = tid ∧ m.isPartial = true ∧ (∀ x ∈ p₁, x.id ≠ tid) ∧
      roleMessages r (onmessage turnCompleteEvent s).messages
        = p₁ ++ { m with text := getBuffer s r, isPartial := false } :: p₂ ∧
      getBuffer (onmessage turnCompleteEvent s) r = "" ∧
      getActive (onmessage turnCompleteEvent s) r = none := by
  obtain ⟨hfresh, hUser, hModel⟩ := hcoh
  rw [onmessage_turnComplete]
  unfold handleTurnComplete
  cases r with
  | user =>
    have hbuf' : s.currentInputText ≠ "" := hbuf
    have hAct := hUser
    rw [ActOk, hact] at hAct
    obtain ⟨htid, hmem, hall⟩ := hAct
    obtain ⟨heq, p₁, m, p₂, hdec, hm, hp, hfirst, hproj⟩ :=
      commit_core Role.user s tid s.currentInputText hmem hall hact
    rw [commitUser_pos s hbuf', heq]
    set T := { setActive { s with messages := replaceFirst tid s.currentInputText true s.messages }
        Role.user none with currentInputText := "" } with hT
    have hdiff : ∀ tid', getActive s Role.model = some tid' → tid' ≠ tid := by
      intro tid' hgm hcontra
      subst hcontra
      have hActM := hModel
      rw [ActOk, hgm] at hActM
      obtain ⟨-, -, hallM⟩ := hActM
      rcases hmem with ⟨x₀, hx₀, hx₀id⟩
      have h1 := (hall x₀ hx₀ hx₀id).1
      have h2 := (hallM x₀ hx₀ hx₀id).1
      rw [h1] at h2
      exact absurd h2 (by decide)
    have hsafeT : ∀ tid', getActive T Role.model = some tid' →
        (∃ x ∈ T.messages, x.id = tid') ∧
        ∀ x ∈ T.messages, x.id = tid' → x.role = Role.model := by
      intro tid' hg'
      have hgm : getActive s Role.model = some tid' := hg'
      have hActM := hModel
      rw [ActOk, hgm] at hActM
      obtain ⟨-, ⟨y, hy, hyid⟩, hallM⟩ := hActM
      have htt : tid' ≠ tid := hdiff tid' hgm
      constructor
      · exact ⟨y, mem_replaceFirst_of_mem (by rw [hyid]; exact htt) _ hy, hyid⟩
      · intro x hx hxid
        have hxRF : x ∈ replaceFirst tid s.currentInputText true s.messages := hx
        have hxS : x ∈ s.messages :=
          mem_of_mem_replaceFirst (by rw [hxid]; exact htt) _ hxRF
        exact (hallM x hxS hxid).1
    have hfreshT : ∀ x ∈ T.messages, x.id < T.nextId := by
      intro x hx
      have hxRF : x ∈ replaceFirst tid s.currentInputText true s.messages := hx
      rcases replaceFirst_mem_idRole _ hxRF with ⟨y, hy, hxy, -⟩
      rw [hxy]
      exact hfresh y hy
    have hnT : tid < T.nextId := htid
    have hnactT : ∀ tid', getActive T Role.model = some tid' → tid' ≠ tid :=
      fun tid' hg' => hdiff tid' hg'
    obtain ⟨hC1, hC2, hC3, hC4, hC5⟩ :=
      commit_other Role.user Role.model (by decide) T tid hsafeT hfreshT hnT hnactT
    have h1 : roleMessages Role.user (commitModel T).messages
        = roleMessages Role.user T.messages := hC1
    refine ⟨p₁, m, p₂, hdec, hm, hp, hfirst, ?_, ?_, ?_⟩
    · rw [h1]
      exact hproj
    · have h3 : getBuffer (commitModel T) Role.user = getBuffer T Role.user := hC3
      exact h3.trans rfl
    · have h2 : getActive (commitModel T) Role.user = getActive T Role.user := hC2
      exact h2.trans rfl
  | model =>
    have hbuf' : s.currentOutputText ≠ "" := hbuf
    have hAct := hModel
    rw [ActOk, hact] at hAct
    obtain ⟨htid, hmem, hall⟩ := hAct
    have hdiff : ∀ tid', getActive s Role.user = some tid' → tid' ≠ tid := by
      intro tid' hgu hcontra
      subst hcontra
      have hActU := hUser
      rw [ActOk, hgu] at hActU
      obtain ⟨-, -, hallU⟩ := hActU
      rcases hmem with ⟨x₀, hx₀, hx₀id⟩
      have h1 := (hall x₀ hx₀ hx₀id).1
      have h2 := (hallU x₀ hx₀ hx₀id).1
      rw [h1] at h2
      exact absurd h2 (by decide)
    have hsafeU : ∀ tid', getActive s Role.user = some tid' →
        (∃ x ∈ s.messages, x.id = tid') ∧
        ∀ x ∈ s.messages, x.id = tid' → x.role = Role.user := by
      intro tid' hgu
      have hActU := hUser
      rw [ActOk, hgu] at hActU
      obtain ⟨-, hmemU, hallU⟩ := hActU
      exact ⟨hmemU, fun x hx hxid => (hallU x hx hxid).1⟩
    obtain ⟨hC1, hC2, hC3, hC4, hC5⟩ :=
      commit_other Role.model Role.user (by decide) s tid hsafeU hfresh htid hdiff
    have hmem₂ : ∃ x ∈ (commitUser s).messages, x.id = tid := by
      rcases hmem with ⟨x₀, hx₀, hid₀⟩
      exact ⟨x₀, hC5 x₀ hx₀ hid₀, hid₀⟩
    have hall₂ : ∀ x ∈ (commitUser s).messages, x.id = tid →
        x.role = Role.model ∧ x.isPartial = true :=
      fun x hx hxid => hall x (hC4 x hx hxid) hxid
    have hact₂ : getActive (commitUser s) Role.model = some tid := by
      have h2 : getActive (commitUser s) Role.model = getActive s Role.model := hC2
      exact h2.trans hact
    have hbuf₂ : (commitUser s).currentOutputText = s.currentOutputText := hC3
    have hbuf₂' : (commitUser s).currentOutputText ≠ "" := by
      rw [hbuf₂]; exact hbuf'
    obtain ⟨heq₂, p₁, m, p₂, hdec₂, hm, hp, hfirst, hproj₂⟩ :=
      commit_core Role.model (commitUser s) tid s.currentOutputText hmem₂ hall₂ hact₂
    have hdecS : roleMessages Role.model s.messages = p₁ ++ m :: p₂ := by
      have h1 : roleMessages Role.model (commitUser s).messages
          = roleMessages Role.model s.messages := hC1
      exact h1.symm.trans hdec₂
    refine ⟨p₁, m, p₂, hdecS, hm, hp, hfirst, ?_, ?_, ?_⟩
    · rw [commitModel_pos _ hbuf₂', hbuf₂, heq₂]
      exact hproj₂
    · rw [commitModel_pos _ hbuf₂']
      rfl
    · rw [commitModel_pos _ hbuf₂', hbuf₂, heq₂]
      rfl

/-- C2 (amended): a turn's worth of non-empty fragments whose concatenation
contains a non-whitespace character, delivered into a turn-start state for
the role, leaves exactly one in-progress message of that role, whose text is
the concatenation of the fragments in arrival order, no deduplication. -/
theorem fragments_one_message (r : Role) (frags : List String) (s : AppState)
    (hbuf : getBuffer s r = "")
    (hact : getActive s r = none)
    (hfresh : ∀ x ∈ s.messages, x.id < s.nextId)
    (hop : ∀ x ∈ s.messages, x.role = r → x.isPartial = false)
    (_hne : ∀ f ∈ frags, f ≠ "")
    (hws : trimNonempty (frags.foldl (fun a f => a ++ f) "") = true) :
    openMessages r (processFragments r frags s).messages
      = [{ id := s.nextId, role := r,
           text := frags.foldl (fun a f => a ++ f) "", isPartial := true }] := by
  have hfresh' : ∀ x ∈ s.messages, x.id ≠ s.nextId := fun x hx => Nat.ne_of_lt (hfresh x hx)
  have hs : stateN r s "" = s := by
    rw [← hbuf]; exact stateN_self r s
  have hrun := runN r s hact hfresh' frags "" rfl
  rw [hs] at hrun
  rcases hrun with ⟨-, htr⟩ | hS
  · rw [htr] at hws
    cases hws
  · rw [hS]
    have hmsg : (stateS r s (frags.foldl (fun a f => a ++ f) "")).messages
        = s.messages ++ [Message.mk s.nextId r (frags.foldl (fun a f => a ++ f) "") true] := by
      rw [stateS, setActive_messages]
    rw [hmsg]
    unfold openMessages
    rw [List.filter_append]
    have h0 : s.messages.filter (fun m => decide (m.role = r) && m.isPartial) = [] := by
      rw [List.filter_eq_nil_iff]
      intro x hx
      by_cases hr : x.role = r
      · simp [hr, hop x hx hr]
      · simp [hr]
    rw [h0]
    simp

/-- Folding whitespace-only fragments onto a whitespace-only accumulator
never produces non-whitespace text. -/
theorem trimNonempty_foldl :
    ∀ (fs : List String) (c : String), trimNonempty c = false →
      (∀ f ∈ fs, trimNonempty f = false) →
      trimNonempty (fs.foldl (fun a f => a ++ f) c) = false := by
  intro fs
  induction fs with
  | nil => intro c hc _; exact hc
  | cons f fs ih =>
    intro c hc hall
    have hcf : trimNonempty (c ++ f) = false := by
      rw [trimNonempty_append, hc, hall f (by simp)]
      rfl
    exact ih (c ++ f) hcf (fun g hg => hall g (by simp [hg]))

/-- Running whitespace-only fragments from an `N` state stays in `N`. -/
theorem runNall (r : Role) (s₀ : AppState)
    (hact : getActive s₀ r = none)
    (hfresh : ∀ x ∈ s₀.messages, x.id ≠ s₀.nextId) :
    ∀ (frags : List String) (c : String), trimNonempty c = false →
      (∀ f ∈ frags, trimNonempty f = false) →
      processFragments r frags (stateN r s₀ c)
        = stateN r s₀ (frags.foldl (fun a f => a ++ f) c) := by
  intro frags
  induction frags with
  | nil => intro c _ _; rfl
  | cons f fs ih =>
    intro c hc hall
    rw [processFragments_cons, stepN r s₀ c f hact hfresh hc]
    have hcf : trimNonempty (c ++ f) = false := by
      rw [trimNonempty_append, hc, hall f (by simp)]
      rfl
    rw [if_neg (by simp [hcf])]
    exact ih (c ++ f) hcf (fun g hg => hall g (by simp [hg]))

/-- C10: a whitespace-only turn creates no message for its role — through
the fragments and through the closing turn-complete signal — because
`updateMessage` only allocates a new message id when the text contains a
non-whitespace character. -/
theorem whitespace_never_creates :
    (∀ (r : Role) (t : String) (f : Bool) (s : AppState),
        getActive s r = none → trimNonempty t = false → updateMessage r t f s = s) ∧
    (∀ (r : Role) (frags : List String) (s : AppState),
        getBuffer s r = "" → getActive s r = none →
        getBuffer s (otherRole r) = "" →
        (∀ x ∈ s.messages, x.id < s.nextId) →
        (∀ f ∈ frags, trimNonempty f = false) →
        (processFragments r frags s).messages = s.messages ∧
        (onmessage turnCompleteEvent (processFragments r frags s)).messages = s.messages) := by
  constructor
  · exact fun r t f s hg hw => updateMessage_none_ws r t f s hg hw
  · intro r frags s hbuf hact hoth hfresh hws
    have hfresh' : ∀ x ∈ s.messages, x.id ≠ s.nextId := fun x hx => Nat.ne_of_lt (hfresh x hx)
    have hs : stateN r s "" = s := by rw [← hbuf]; exact stateN_self r s
    have hrun := runNall r s hact hfresh' frags "" rfl hws
    rw [hs] at hrun
    rw [hrun]
    have htot : trimNonempty (frags.foldl (fun a f => a ++ f) "") = false :=
      trimNonempty_foldl frags "" rfl hws
    refine ⟨by rw [stateN]; exact setBuffer_messages _ _ _, ?_⟩
    rw [onmessage_turnComplete]
    unfold handleTurnComplete
    cases r with
    | user =>
      have hXin : (stateN Role.user s (frags.foldl (fun a f => a ++ f) "")).currentInputText
          = frags.foldl (fun a f => a ++ f) "" := rfl
      have hXout : (stateN Role.user s (frags.foldl (fun a f => a ++ f) "")).currentOutputText
          = "" := hoth
      have hXact : getActive (stateN Role.user s (frags.foldl (fun a f => a ++ f) ""))
          Role.user = none := hact
      by_cases hce : frags.foldl (fun a f => a ++ f) "" = ""
      · rw [commitUser_neg _ (hXin.trans hce), commitModel_neg _ hXout]
        exact setBuffer_messages _ _ _
      · rw [commitUser_pos _ (by rw [hXin]; exact hce)]
        rw [hXin, updateMessage_none_ws Role.user _ true _ hXact htot]
        rw [commitModel_neg]
        · rfl
        · exact hXout
    | model =>
      have hXout : (stateN Role.model s (frags.foldl (fun a f => a ++ f) "")).currentOutputText
          = frags.foldl (fun a f => a ++ f) "" := rfl
      have hXin : (stateN Role.model s (frags.foldl (fun a f => a ++ f) "")).currentInputText
          = "" := hoth
      have hXact : getActive (stateN Role.model s (frags.foldl (fun a f => a ++ f) ""))
          Role.model = none := hact
      rw [commitUser_neg _ hXin]
      by_cases hce : frags.foldl (fun a f => a ++ f) "" = ""
      · rw [commitModel_neg _ (hXout.trans hce)]
        exact setBuffer_messages _ _ _
      · rw [commitModel_pos _ (by rw [hXout]; exact hce)]
        rw [hXout, updateMessage_none_ws Role.model _ true _ hXact htot]
        rfl

/-! ## Export, disconnect, error-path and key-gate facts -/


theorem downloadTranscript_eq_exportText (msgs : List Message) :
    downloadTranscript msgs = exportText msgs := by
  have hblock : ∀ m : Message,
      "[" ++ (if m.role = Role.user then "User" else "AI") ++ "]: " ++ m.text
        = exportBlock m := by
    intro m
    unfold exportBlock
    by_cases h : m.role = Role.user
    · rw [if_pos h, if_pos h]
      rfl
    · rw [if_neg h, if_neg h]
      rfl
  unfold downloadTranscript exportText
  by_cases h : msgs = []
  · rw [if_pos (by simp [h]), if_pos h]
  · rw [if_neg (by simp [h]), if_neg h]
    have hmap : msgs.map (fun msg =>
        "[" ++ (if msg.role = Role.user then "User" else "AI") ++ "]: " ++ msg.text)
          = msgs.map exportBlock :=
      List.map_congr_left (fun m _ => hblock m)
    rw [hmap]

/-! ## Claim theorems, counterexamples and witnesses -/

/-- C1: from every prior state — error states included — running
`disconnect` to completion leaves both accumulation buffers empty and both
active message id trackers `none`. -/
theorem c1_disconnect_clears (s : AppState) :
    (disconnect s).currentInputText = "" ∧
    (disconnect s).currentOutputText = "" ∧
    (disconnect s).activeUserId = none ∧
    (disconnect s).activeModelId = none :=
  ⟨rfl, rfl, rfl, rfl⟩

theorem c1_disconnect_clears_witness :
    (disconnect (onerror "boom" initState)).currentInputText = "" ∧
    (disconnect (onerror "boom" initState)).currentOutputText = "" ∧
    (disconnect (onerror "boom" initState)).activeUserId = none ∧
    (disconnect (onerror "boom" initState)).activeModelId = none :=
  c1_disconnect_clears (onerror "boom" initState)

/-- C2 (as stated) is refuted: the single non-empty fragment `" "` yields no
in-progress user message at all, because `updateMessage` ignores text whose
trim is empty. -/
theorem c2_counterexample :
    (∀ f ∈ [" "], f ≠ "") ∧
    (openMessages Role.user (processFragments Role.user [" "] initState).messages).length
      = 0 := by
  decide

theorem c2_fragments_concat_witness :
    trimNonempty (["hel", "lo"].foldl (fun a f => a ++ f) "") = true ∧
    openMessages Role.user (processFragments Role.user ["hel", "lo"] initState).messages
      = [{ id := 0, role := Role.user, text := "hello", isPartial := true }] :=
  ⟨by decide,
    fragments_one_message Role.user ["hel", "lo"] initState rfl rfl
      (by decide) (by decide) (by decide) (by decide)⟩

/-- C3 (as stated) is refuted: after the whitespace-only fragment `" "`, the
user buffer is non-empty, yet the turn-complete signal finalizes no message
— the message list stays empty. -/
theorem c3_counterexample :
    (processFragments Role.user [" "] initState).currentInputText ≠ "" ∧
    (onmessage turnCompleteEvent (processFragments Role.user [" "] initState)).messages
      = [] := by
  decide

theorem c3_turnComplete_witness :
    Coherent (processFragments Role.user ["hi"] initState) ∧
    getBuffer (processFragments Role.user ["hi"] initState) Role.user ≠ "" ∧
    (∃ p₁ m p₂,
      roleMessages Role.user (processFragments Role.user ["hi"] initState).messages
        = p₁ ++ m :: p₂ ∧
      m.id = 0 ∧ m.isPartial = true ∧ (∀ x ∈ p₁, x.id ≠ 0) ∧
      roleMessages Role.user
          (onmessage turnCompleteEvent (processFragments Role.user ["hi"] initState)).messages
        = p₁ ++ { m with
            text := getBuffer (processFragments Role.user ["hi"] initState) Role.user,
            isPartial := false } :: p₂ ∧
      getBuffer (onmessage turnCompleteEvent (processFragments Role.user ["hi"] initState))
          Role.user = "" ∧
      getActive (onmessage turnCompleteEvent (processFragments Role.user ["hi"] initState))
          Role.user = none) :=
  ⟨by decide, by decide,
    turnComplete_finalizes Role.user (processFragments Role.user ["hi"] initState) 0
      (by decide) (by decide) (by decide)⟩

/-- C4: exporting an empty transcript performs no action; otherwise the
export equals the spec-side serialization: one `[User]:`/`[AI]:` block per
message, in original order, consecutive blocks separated by one blank
line. -/
theorem c4_download_blocks (msgs : List Message) :
    downloadTranscript msgs = exportText msgs ∧
    downloadTranscript [] = none ∧
    (msgs.map exportBlock).length = msgs.length :=
  ⟨downloadTranscript_eq_exportText msgs, rfl, by simp⟩

theorem c4_download_blocks_witness :
    downloadTranscript [{ id := 1, role := Role.user, text := "hi", isPartial := false },
        { id := 2, role := Role.model, text := "yo", isPartial := false }]
      = exportText [{ id := 1, role := Role.user, text := "hi", isPartial := false },
        { id := 2, role := Role.model, text := "yo", isPartial := false }] ∧
    downloadTranscript [] = none ∧
    ([{ id := 1, role := Role.user, text := "hi", isPartial := false },
        { id := 2, role := Role.model, text := "yo", isPartial := false }].map
          exportBlock).length = 2 :=
  c4_download_blocks _

/-- C5 (as stated) is refuted: after the whitespace-only fragment `" "`, the
model buffer is non-empty and no in-progress model message exists, yet the
interruption creates and finalizes a fresh message rather than finalizing an
existing in-progress one. -/
theorem c5_counterexample :
    (processFragments Role.model [" "] initState).currentOutputText ≠ "" ∧
    openMessages Role.model (processFragments Role.model [" "] initState).messages = [] ∧
    (onmessage interruptEvent (processFragments Role.model [" "] initState)).messages
      = [{ id := 0, role := Role.model, text := "  ...", isPartial := false }] := by
  decide

theorem c5_interrupt_witness :
    Coherent (processFragments Role.model ["ok"] initState) ∧
    (processFragments Role.model ["ok"] initState).currentOutputText ≠ "" ∧
    (∃ p₁ m p₂,
      roleMessages Role.model (processFragments Role.model ["ok"] initState).messages
        = p₁ ++ m :: p₂ ∧
      m.id = 0 ∧ m.isPartial = true ∧ (∀ x ∈ p₁, x.id ≠ 0) ∧
      roleMessages Role.model
          (onmessage interruptEvent (processFragments Role.model ["ok"] initState)).messages
        = p₁ ++ { m with
            text := (processFragments Role.model ["ok"] initState).currentOutputText ++ " ...",
            isPartial := false } :: p₂ ∧
      (onmessage interruptEvent (processFragments Role.model ["ok"] initState)).currentOutputText
        = "" ∧
      (onmessage interruptEvent (processFragments Role.model ["ok"] initState)).activeModelId
        = none) :=
  ⟨by decide, by decide,
    interrupt_finalizes_model (processFragments Role.model ["ok"] initState) 0
      (by decide) (by decide) (by decide)⟩

/-- C6: a turn-complete signal with an empty buffer for a role makes that
role's branch a no-op: no message is created or finalized, the message list
is untouched. -/
theorem c6_empty_buffer_no_commit (r : Role) (s : AppState)
    (h : getBuffer s r = "") :
    commitFor r s = s ∧ (commitFor r s).messages = s.messages := by
  have h1 : commitFor r s = s := by
    cases r
    · exact commitUser_neg s h
    · exact commitModel_neg s h
  exact ⟨h1, by rw [h1]⟩

theorem c6_empty_buffer_no_commit_witness :
    commitFor Role.user initState = initState ∧
    (commitFor Role.user initState).messages = initState.messages :=
  c6_empty_buffer_no_commit Role.user initState rfl

/-- C7: a transcription event carrying an empty fragment changes nothing:
not the buffers, not the trackers, not the message list. -/
theorem c7_empty_fragment_noop (r : Role) (s : AppState) :
    onmessage (fragEvent r "") s = s ∧
    (onmessage (fragEvent r "") s).messages = s.messages ∧
    getBuffer (onmessage (fragEvent r "") s) r = getBuffer s r ∧
    ∀ r', getActive (onmessage (fragEvent r "") s) r' = getActive s r' := by
  have h := onmessage_frag_empty r s
  exact ⟨h, by rw [h], by rw [h], fun r' => by rw [h]⟩

theorem c7_empty_fragment_noop_witness :
    onmessage (fragEvent Role.user "") initState = initState :=
  (c7_empty_fragment_noop Role.user initState).1

/-- C8: with the credential absent, startup records the fixed error string,
and every `connect` call on a state without an AI client returns immediately
and unchanged: no error rewrite, no session, no audio context. -/
theorem c8_missing_key_blocks (s : AppState) (a : ConnectAttempt)
    (h : s.hasAi = false) :
    (initAi false s).error = some "API Key is missing." ∧
    (initAi false s).hasAi = s.hasAi ∧
    connect a s = (s, false) := by
  refine ⟨rfl, rfl, ?_⟩
  unfold connect
  rw [if_pos h]

theorem c8_missing_key_blocks_witness :
    (initAi false initState).hasAi = false ∧
    (initAi false initState).error = some "API Key is missing." ∧
    connect ConnectAttempt.success (initAi false initState)
      = (initAi false initState, false) := by
  have h := c8_missing_key_blocks (initAi false initState) ConnectAttempt.success (by decide)
  exact ⟨by decide, h.1.symm ▸ (by decide), h.2.2⟩

/-- C9: no operation deletes a message or rewrites an id or role: each
`updateMessage` is a single in-place edit or an append, every `onmessage`
only extends the id-and-role skeleton, and the teardown and error paths
leave the message list untouched. -/
theorem c9_messages_append_only :
    (∀ (role : Role) (t : String) (f : Bool) (s : AppState),
        SingleEdit s.messages (updateMessage role t f s).messages) ∧
    (∀ (msg : LiveServerMessage) (s : AppState),
        SkeletonLe s.messages (onmessage msg s).messages) ∧
    (∀ s : AppState, (disconnect s).messages = s.messages) ∧
    (∀ (e : String) (s : AppState), (onerror e s).messages = s.messages) ∧
    (∀ s : AppState, (onclose s).messages = s.messages) ∧
    (∀ (k : Bool) (s : AppState), (initAi k s).messages = s.messages) ∧
    (∀ (a : ConnectAttempt) (s : AppState), (connect a s).1.messages = s.messages) := by
  refine ⟨updateMessage_singleEdit, onmessage_skeletonLe, fun s => rfl,
    fun e s => rfl, fun s => rfl, ?_, ?_⟩
  · intro k s
    unfold initAi
    split <;> rfl
  · intro a s
    unfold connect
    split
    · rfl
    · cases a <;> rfl

theorem c9_messages_append_only_witness :
    SingleEdit initState.messages (updateMessage Role.user "hi" false initState).messages ∧
    (disconnect initState).messages = initState.messages :=
  ⟨c9_messages_append_only.1 Role.user "hi" false initState,
    c9_messages_append_only.2.2.1 initState⟩

theorem c10_whitespace_witness :
    updateMessage Role.user " " true initState = initState ∧
    (processFragments Role.user [" "] initState).messages = initState.messages ∧
    (onmessage turnCompleteEvent (processFragments Role.user [" "] initState)).messages
      = initState.messages :=
  ⟨whitespace_never_creates.1 Role.user " " true initState (by decide) (by decide),
    (whitespace_never_creates.2 Role.user [" "] initState (by decide) (by decide)
      (by decide) (by decide) (by decide)).1,
    (whitespace_never_creates.2 Role.user [" "] initState (by decide) (by decide)
      (by decide) (by decide) (by decide)).2⟩
